import Mathlib

/-!
# Verification of the grouped repack engine (`export_from_pack_grouped`)

Shallow embedding of the repack/flush logic of `src/example_repository.py`
(function `export_from_pack_grouped`, lines 96-204), together with proofs of
the specification's claims about it.

Modelling choices, justified line by line against the source:

* An object identifier (`HashKey`) is an opaque value compared by equality;
  we use `Nat`.  A byte buffer (`Content`) is a list of bytes (`List Nat`);
  `io.BytesIO(stream.read())` is modelled as the byte list the stream yields.
* The iteration of `get_objects_stream_and_meta` yields, per object, the old
  hashkey, the stream and the metadata; the engine reads only `meta['size']`.
  We model the yielded sequence of one group directly as a `List Triplet`,
  where a `Triplet` carries the old hashkey, the bytes the stream yields on
  `read()`, and the declared `meta['size']` (kept separate from the content,
  exactly as in the code, which trusts the metadata for its accounting while
  buffering the actual bytes).
* The output container (`disk_objectstore.Container`) is content addressed:
  `add_streamed_objects_to_pack(streams)` returns one new hashkey per stream,
  in order, each determined by the stream's content.  It is an external
  collaborator, so we parameterise the engine over the content-to-new-hashkey
  function `hash` and model the call as `streams.map hash`.
* `content_cache` is a Python `dict`; Python dicts preserve insertion order,
  and assigning to an existing key overwrites the value in place.
  `pyDictInsert`/`pyDict` reproduce exactly these semantics on association
  lists, and `dict(zip(ks, vs))` is `pyDict (ks.zip vs)`.
* `old_new_obj_hashkey_mapping` is a Python local assigned only inside the
  `for idx, node_uuids_chunk in ...` loop and referenced by the `return`
  statement; calling the function with no groups therefore raises
  `UnboundLocalError`.  The embedding returns an `Option`, `none` standing
  for that unbound-variable failure.
* Prints, timing, compression and the on-disk container state play no role
  in any claim and are omitted.
-/

/-- An object identifier: opaque, compared by value (a hash digest in the
source); modelled as `Nat`. -/
abbrev HashKey := Nat

/-- An owned byte buffer (the result of `stream.read()`): a list of bytes. -/
abbrev Content := List Nat

/-- One item yielded by the Stream Source's iteration
(`for old_obj_hashkey, stream, meta in triplets`): the old hashkey, the bytes
the stream yields, and the declared size `meta['size']`. -/
structure Triplet where
  hashkey : HashKey
  content : Content
  size : Nat
  deriving DecidableEq

/-- Python `dict` assignment `d[k] = v`: if `k` is already a key, the value is
overwritten in place (insertion order kept); otherwise the pair is appended. -/
def pyDictInsert {α β : Type} [DecidableEq α] (d : List (α × β)) (k : α) (v : β) :
    List (α × β) :=
  if k ∈ d.map Prod.fst then d.map (fun p => if p.1 = k then (k, v) else p)
  else d ++ [(k, v)]

/-- Python `dict(pairs)` (hence `dict(zip(ks, vs))`): insert the pairs left to
right into an initially empty dict. -/
def pyDict {α β : Type} [DecidableEq α] (ps : List (α × β)) : List (α × β) :=
  ps.foldl (fun d p => pyDictInsert d p.1 p.2) []

/-- `Container.add_streamed_objects_to_pack(streams)` of the external
`disk_objectstore` collaborator: returns one new hashkey per input stream, in
the same order, each determined by the stream's content (the container is
content addressed); parameterised by the content-to-hashkey function. -/
def add_streamed_objects_to_pack (hash : Content → HashKey) (streams : List Content) :
    List HashKey :=
  streams.map hash

/-- The mutable state of one group's processing in `export_from_pack_grouped`
(lines 125-128), plus `batches`: the log of `add_streamed_objects_to_pack`
calls made so far for this group, each recorded as the list of
(old hashkey, stream content) pairs handed over, in submission order (the
code builds the hashkey list and the stream list of a call side by side, so
logging them as pairs is faithful). -/
structure GroupState where
  old_obj_hashkeys : List HashKey
  new_obj_hashkeys : List HashKey
  content_cache : List (HashKey × Content)
  cache_size : Nat
  batches : List (List (HashKey × Content))
  deriving DecidableEq

/-- The state at the top of a group's `with ... as triplets:` block:
empty hashkey lists, empty cache, zero tracked size, no writer calls yet. -/
def initGroupState : GroupState :=
  { old_obj_hashkeys := []
    new_obj_hashkeys := []
    content_cache := []
    cache_size := 0
    batches := [] }

/-- The three-way decision of the per-object `if/elif/else` (lines 132, 144,
168): direct write when `meta['size'] > max_memory_usage`, flush-then-buffer
when `cache_size + meta['size'] > max_memory_usage`, otherwise buffer. -/
inductive FlushAction where
  | direct
  | flushThenBuffer
  | buffer
  deriving DecidableEq

/-- Which branch the loop body takes for an object of declared size `size`
when the tracked cache size is `cache_size` (source lines 132, 144, 168). -/
def chooseAction (max_memory_usage cache_size size : Nat) : FlushAction :=
  if size > max_memory_usage then .direct
  else if cache_size + size > max_memory_usage then .flushThenBuffer
  else .buffer

/-- One iteration of the per-object loop (source lines 129-170) on state `s`
for the yielded triplet `t`:

* direct write: append the old hashkey, submit `[stream]` as a batch of one,
  append the returned new hashkey; cache untouched;
* flush-then-buffer: build the hashkey and stream lists from
  `content_cache.items()`, submit them as one batch, append both hashkey
  lists, reset the cache, then buffer the current object into the fresh
  cache (`content_cache[old] = BytesIO(stream.read())`,
  `cache_size += meta['size']`);
* buffer: add the object to the cache and add `meta['size']` to the tracked
  size. -/
def processTriplet (hash : Content → HashKey) (max_memory_usage : Nat)
    (s : GroupState) (t : Triplet) : GroupState :=
  match chooseAction max_memory_usage s.cache_size t.size with
  | .direct =>
      { s with
        old_obj_hashkeys := s.old_obj_hashkeys ++ [t.hashkey]
        new_obj_hashkeys :=
          s.new_obj_hashkeys ++ add_streamed_objects_to_pack hash [t.content]
        batches := s.batches ++ [[(t.hashkey, t.content)]] }
  | .flushThenBuffer =>
      { old_obj_hashkeys := s.old_obj_hashkeys ++ s.content_cache.map Prod.fst
        new_obj_hashkeys :=
          s.new_obj_hashkeys ++
            add_streamed_objects_to_pack hash (s.content_cache.map Prod.snd)
        content_cache := [(t.hashkey, t.content)]
        cache_size := 0 + t.size
        batches := s.batches ++ [s.content_cache] }
  | .buffer =>
      { s with
        content_cache := pyDictInsert s.content_cache t.hashkey t.content
        cache_size := s.cache_size + t.size }

/-- The final flush after the loop (source lines 174-187): the hashkey and
stream lists are rebuilt from `content_cache.items()` and submitted
unconditionally — the `add_streamed_objects_to_pack` call is made even when
the cache is empty — then the cache is reset. -/
def finalFlush (hash : Content → HashKey) (s : GroupState) : GroupState :=
  { old_obj_hashkeys := s.old_obj_hashkeys ++ s.content_cache.map Prod.fst
    new_obj_hashkeys :=
      s.new_obj_hashkeys ++
        add_streamed_objects_to_pack hash (s.content_cache.map Prod.snd)
    content_cache := []
    cache_size := 0
    batches := s.batches ++ [s.content_cache] }

/-- Processing of one whole group (the body of the
`with source_repo.container.get_objects_stream_and_meta(...) as triplets:`
block, lines 123-187): fold the per-object step over the yielded triplets,
then perform the final flush. -/
def processGroup (hash : Content → HashKey) (max_memory_usage : Nat)
    (triplets : List Triplet) : GroupState :=
  finalFlush hash (triplets.foldl (processTriplet hash max_memory_usage) initGroupState)

/-- `export_from_pack_grouped` (lines 96-204), as a function of the sequences
of triplets the Stream Source yields for each group.  Per group the hashkey
lists and the cache are re-initialised, the group is processed, and
`old_new_obj_hashkey_mapping = dict(zip(old_obj_hashkeys, new_obj_hashkeys))`
is (re)assigned; the function returns the mapping's last assigned value.
`none` models the `UnboundLocalError` raised at `return` when
`node_uuids_groups` is empty, so that the local was never assigned. -/
def export_from_pack_grouped (hash : Content → HashKey) (max_memory_usage : Nat)
    (groups : List (List Triplet)) : Option (List (HashKey × HashKey)) :=
  groups.foldl
    (fun _ triplets =>
      let s := processGroup hash max_memory_usage triplets
      some (pyDict (s.old_obj_hashkeys.zip s.new_obj_hashkeys)))
    none

/-- A concrete content-to-hashkey function for closed witnesses and
counterexamples: the sum of the bytes (any function works for the engine;
injectivity is irrelevant to the statements that use it). -/
def sumHash (c : Content) : HashKey := c.sum

/-! ## Basic lemmas about the per-object step and the dict model -/

/-- When `meta['size'] > max_memory_usage` the loop body takes the
direct-write branch. -/
theorem processTriplet_direct (hash : Content → HashKey) (mmu : Nat)
    (s : GroupState) (t : Triplet) (h : t.size > mmu) :
    processTriplet hash mmu s t =
      { s with
        old_obj_hashkeys := s.old_obj_hashkeys ++ [t.hashkey]
        new_obj_hashkeys := s.new_obj_hashkeys ++ [hash t.content]
        batches := s.batches ++ [[(t.hashkey, t.content)]] } := by
  simp [processTriplet, chooseAction, h, add_streamed_objects_to_pack]

/-- When the object fits alone but not on top of the cache, the loop body
takes the flush-then-buffer branch. -/
theorem processTriplet_flush (hash : Content → HashKey) (mmu : Nat)
    (s : GroupState) (t : Triplet) (h1 : ¬ t.size > mmu)
    (h2 : s.cache_size + t.size > mmu) :
    processTriplet hash mmu s t =
      { old_obj_hashkeys := s.old_obj_hashkeys ++ s.content_cache.map Prod.fst
        new_obj_hashkeys :=
          s.new_obj_hashkeys ++ (s.content_cache.map Prod.snd).map hash
        content_cache := [(t.hashkey, t.content)]
        cache_size := t.size
        batches := s.batches ++ [s.content_cache] } := by
  simp [processTriplet, chooseAction, h1, h2, add_streamed_objects_to_pack]

/-- When the object fits on top of the cache, the loop body takes the
buffer branch. -/
theorem processTriplet_buffer (hash : Content → HashKey) (mmu : Nat)
    (s : GroupState) (t : Triplet) (h1 : ¬ t.size > mmu)
    (h2 : ¬ s.cache_size + t.size > mmu) :
    processTriplet hash mmu s t =
      { s with
        content_cache := pyDictInsert s.content_cache t.hashkey t.content
        cache_size := s.cache_size + t.size } := by
  simp [processTriplet, chooseAction, h1, h2]

/-- Inserting a fresh key into a Python dict appends the pair. -/
theorem pyDictInsert_of_not_mem {α β : Type} [DecidableEq α]
    (d : List (α × β)) (k : α) (v : β) (h : k ∉ d.map Prod.fst) :
    pyDictInsert d k v = d ++ [(k, v)] := by
  simp [pyDictInsert, h]

/-- Overwriting an existing key of a Python dict leaves its key list
unchanged. -/
theorem keys_pyDictInsert_of_mem {α β : Type} [DecidableEq α]
    (d : List (α × β)) (k : α) (v : β) (h : k ∈ d.map Prod.fst) :
    (pyDictInsert d k v).map Prod.fst = d.map Prod.fst := by
  simp only [pyDictInsert, h, if_true, List.map_map]
  refine List.map_congr_left (fun p _ => ?_)
  by_cases hp : p.1 = k <;> simp [hp]

/-- After `d[k] = v` the key `k` is a key of the dict. -/
theorem mem_keys_pyDictInsert {α β : Type} [DecidableEq α]
    (d : List (α × β)) (k : α) (v : β) :
    k ∈ (pyDictInsert d k v).map Prod.fst := by
  by_cases h : k ∈ d.map Prod.fst
  · rw [keys_pyDictInsert_of_mem d k v h]; exact h
  · rw [pyDictInsert_of_not_mem d k v h]; simp

/-- `d[k] = v` never removes a key. -/
theorem keys_subset_pyDictInsert {α β : Type} [DecidableEq α]
    (d : List (α × β)) (k : α) (v : β) :
    d.map Prod.fst ⊆ (pyDictInsert d k v).map Prod.fst := by
  by_cases h : k ∈ d.map Prod.fst
  · rw [keys_pyDictInsert_of_mem d k v h]
    exact fun a ha => ha
  · rw [pyDictInsert_of_not_mem d k v h]
    intro a ha; simp [ha]

/-- `d[k] = v` keeps the keys pairwise distinct. -/
theorem nodup_keys_pyDictInsert {α β : Type} [DecidableEq α]
    (d : List (α × β)) (k : α) (v : β) (h : (d.map Prod.fst).Nodup) :
    ((pyDictInsert d k v).map Prod.fst).Nodup := by
  by_cases hk : k ∈ d.map Prod.fst
  · rw [keys_pyDictInsert_of_mem d k v hk]; exact h
  · rw [pyDictInsert_of_not_mem d k v hk]
    simp only [List.map_append, List.map_cons, List.map_nil]
    rw [List.nodup_append]
    refine ⟨h, List.nodup_singleton k, ?_⟩
    intro a ha
    simp only [List.mem_singleton]
    intro hak
    exact hk (hak ▸ ha)

/-! ## Invariants of the per-group loop -/

/-- Any run of the per-object loop keeps the tracked cache size within the
memory budget: a direct write leaves it unchanged, a flush restarts it at the
incoming object's size (which fits alone), and buffering is guarded by the
`cache_size + meta['size'] > max_memory_usage` test. -/
theorem cache_size_le_foldl (hash : Content → HashKey) (mmu : Nat)
    (ts : List Triplet) :
    ∀ s : GroupState, s.cache_size ≤ mmu →
      (ts.foldl (processTriplet hash mmu) s).cache_size ≤ mmu := by
  induction ts with
  | nil => exact fun s h => h
  | cons t ts ih =>
      intro s h
      simp only [List.foldl_cons]
      apply ih
      by_cases h1 : t.size > mmu
      · rw [processTriplet_direct hash mmu s t h1]; exact h
      · by_cases h2 : s.cache_size + t.size > mmu
        · rw [processTriplet_flush hash mmu s t h1 h2]
          exact Nat.le_of_not_lt h1
        · rw [processTriplet_buffer hash mmu s t h1 h2]
          exact Nat.le_of_not_lt h2

/-- Each loop iteration appends equally many old and new hashkeys, so the two
accumulated lists always have the same length. -/
theorem length_old_new_foldl (hash : Content → HashKey) (mmu : Nat)
    (ts : List Triplet) :
    ∀ s : GroupState,
      s.old_obj_hashkeys.length = s.new_obj_hashkeys.length →
      (ts.foldl (processTriplet hash mmu) s).old_obj_hashkeys.length =
        (ts.foldl (processTriplet hash mmu) s).new_obj_hashkeys.length := by
  induction ts with
  | nil => exact fun s h => h
  | cons t ts ih =>
      intro s h
      simp only [List.foldl_cons]
      apply ih
      by_cases h1 : t.size > mmu
      · rw [processTriplet_direct hash mmu s t h1]; simp [h]
      · by_cases h2 : s.cache_size + t.size > mmu
        · rw [processTriplet_flush hash mmu s t h1 h2]; simp [h]
        · rw [processTriplet_buffer hash mmu s t h1 h2]; exact h

/-- After the final flush the accumulated old and new hashkey lists of a
group have the same length. -/
theorem length_old_new_processGroup (hash : Content → HashKey) (mmu : Nat)
    (ts : List Triplet) :
    (processGroup hash mmu ts).old_obj_hashkeys.length =
      (processGroup hash mmu ts).new_obj_hashkeys.length := by
  unfold processGroup finalFlush
  simp [add_streamed_objects_to_pack,
    length_old_new_foldl hash mmu ts initGroupState rfl]

/-- One loop iteration keeps every hashkey that is already accumulated or
cached (or is the incoming object's) either in the accumulated old-hashkey
list or among the cache's keys. -/
theorem step_tracks_hashkey (hash : Content → HashKey) (mmu : Nat)
    (s : GroupState) (t : Triplet) (k : HashKey)
    (h : k = t.hashkey ∨ k ∈ s.old_obj_hashkeys ∨
      k ∈ s.content_cache.map Prod.fst) :
    k ∈ (processTriplet hash mmu s t).old_obj_hashkeys ∨
      k ∈ (processTriplet hash mmu s t).content_cache.map Prod.fst := by
  by_cases h1 : t.size > mmu
  · rw [processTriplet_direct hash mmu s t h1]
    rcases h with rfl | h | h
    · left; simp
    · left; simp [h]
    · right; exact h
  · by_cases h2 : s.cache_size + t.size > mmu
    · rw [processTriplet_flush hash mmu s t h1 h2]
      rcases h with rfl | h | h
      · right; simp
      · left; simp [h]
      · left; simp [h]
    · rw [processTriplet_buffer hash mmu s t h1 h2]
      rcases h with rfl | h | h
      · right; exact mem_keys_pyDictInsert s.content_cache t.hashkey t.content
      · left; exact h
      · right; exact keys_subset_pyDictInsert s.content_cache t.hashkey t.content h

/-- Every hashkey yielded to the loop (and every hashkey already tracked)
ends up, when the loop finishes, in the accumulated old-hashkey list or in
the cache. -/
theorem mem_old_or_cache_foldl (hash : Content → HashKey) (mmu : Nat)
    (ts : List Triplet) :
    ∀ (s : GroupState) (k : HashKey),
      (k ∈ ts.map Triplet.hashkey ∨ k ∈ s.old_obj_hashkeys ∨
        k ∈ s.content_cache.map Prod.fst) →
      (k ∈ (ts.foldl (processTriplet hash mmu) s).old_obj_hashkeys ∨
        k ∈ (ts.foldl (processTriplet hash mmu) s).content_cache.map Prod.fst) := by
  induction ts with
  | nil =>
      intro s k h
      rcases h with h | h
      · simp at h
      · exact h
  | cons t ts ih =>
      intro s k h
      simp only [List.foldl_cons]
      rcases h with h | h
      · rw [List.map_cons, List.mem_cons] at h
        rcases h with rfl | h
        · exact ih _ _ (Or.inr (step_tracks_hashkey hash mmu s t _ (Or.inl rfl)))
        · exact ih _ _ (Or.inl h)
      · exact ih _ _ (Or.inr (step_tracks_hashkey hash mmu s t k (Or.inr h)))

/-- Every hashkey the Stream Source yields for a group is in the group's
accumulated old-hashkey list once the final flush is done. -/
theorem mem_old_processGroup (hash : Content → HashKey) (mmu : Nat)
    (ts : List Triplet) (k : HashKey) (hk : k ∈ ts.map Triplet.hashkey) :
    k ∈ (processGroup hash mmu ts).old_obj_hashkeys := by
  have h := mem_old_or_cache_foldl hash mmu ts initGroupState k (Or.inl hk)
  unfold processGroup finalFlush
  rcases h with h | h
  · exact List.mem_append_left _ h
  · exact List.mem_append_right _ h

/-! ## Key lists of Python dicts -/

/-- Folding dict insertions keeps the key list duplicate free. -/
theorem nodup_keys_pyDict_go {α β : Type} [DecidableEq α] (ps : List (α × β)) :
    ∀ d : List (α × β), (d.map Prod.fst).Nodup →
      ((ps.foldl (fun d p => pyDictInsert d p.1 p.2) d).map Prod.fst).Nodup := by
  induction ps with
  | nil => exact fun d h => h
  | cons p ps ih =>
      intro d h
      exact ih _ (nodup_keys_pyDictInsert d p.1 p.2 h)

/-- A Python dict has pairwise distinct keys. -/
theorem nodup_keys_pyDict {α β : Type} [DecidableEq α] (ps : List (α × β)) :
    ((pyDict ps).map Prod.fst).Nodup :=
  nodup_keys_pyDict_go ps [] List.nodup_nil

/-- Every key inserted while folding (and every key already present) is a key
of the resulting dict. -/
theorem mem_keys_pyDict_go {α β : Type} [DecidableEq α] (ps : List (α × β)) :
    ∀ (d : List (α × β)) (k : α),
      (k ∈ d.map Prod.fst ∨ k ∈ ps.map Prod.fst) →
      k ∈ (ps.foldl (fun d p => pyDictInsert d p.1 p.2) d).map Prod.fst := by
  induction ps with
  | nil =>
      intro d k h
      rcases h with h | h
      · exact h
      · simp at h
  | cons p ps ih =>
      intro d k h
      simp only [List.foldl_cons]
      rcases h with h | h
      · exact ih _ _ (Or.inl (keys_subset_pyDictInsert d p.1 p.2 h))
      · rw [List.map_cons, List.mem_cons] at h
        rcases h with rfl | h
        · exact ih _ _ (Or.inl (mem_keys_pyDictInsert d p.1 p.2))
        · exact ih _ _ (Or.inr h)

/-- Every key of one of the inserted pairs is a key of the dict. -/
theorem mem_keys_pyDict {α β : Type} [DecidableEq α] (ps : List (α × β))
    (k : α) (h : k ∈ ps.map Prod.fst) : k ∈ (pyDict ps).map Prod.fst :=
  mem_keys_pyDict_go ps [] k (Or.inr h)

/-- A key inserted into a Python dict occurs exactly once among its keys. -/
theorem count_keys_pyDict_eq_one {α β : Type} [DecidableEq α]
    (ps : List (α × β)) (k : α) (h : k ∈ ps.map Prod.fst) :
    ((pyDict ps).map Prod.fst).count k = 1 :=
  List.count_eq_one_of_mem (nodup_keys_pyDict ps) (mem_keys_pyDict ps k h)

/-! ## Lookup after overwriting inserts -/

/-- Overwriting an existing key: looking the key up afterwards yields the new
value. -/
theorem lookup_map_overwrite {β : Type} (d : List (HashKey × β)) (k : HashKey)
    (v : β) (h : k ∈ d.map Prod.fst) :
    List.lookup k (d.map (fun p => if p.1 = k then (k, v) else p)) = some v := by
  induction d with
  | nil => simp at h
  | cons p d ih =>
      simp only [List.map_cons]
      by_cases hp : p.1 = k
      · have hhead : (if p.1 = k then (k, v) else p) = (k, v) := if_pos hp
        rw [hhead]
        simp [List.lookup]
      · have hk : k ∈ d.map Prod.fst := by
          rw [List.map_cons] at h
          rcases List.mem_cons.mp h with h' | h'
          · exact absurd h'.symm hp
          · exact h'
        have hb : (k == p.1) = false := beq_eq_false_iff_ne.mpr (fun he => hp he.symm)
        rw [if_neg hp]
        simpa [List.lookup, hb] using ih hk

/-- Appending a pair with a fresh key: looking the key up afterwards yields
the appended value. -/
theorem lookup_append_self {β : Type} (d : List (HashKey × β)) (k : HashKey)
    (v : β) (h : k ∉ d.map Prod.fst) :
    List.lookup k (d ++ [(k, v)]) = some v := by
  induction d with
  | nil => simp [List.lookup]
  | cons p d ih =>
      have hp : k ≠ p.1 := fun he => h (by simp [he])
      have hb : (k == p.1) = false := beq_eq_false_iff_ne.mpr hp
      have hk : k ∉ d.map Prod.fst := fun hm => h (by simp [hm])
      simpa [List.lookup, hb] using ih hk

/-- After `d[k] = v`, looking up `k` yields `v` — whether or not `k` was
already a key. -/
theorem lookup_pyDictInsert_self {β : Type} (d : List (HashKey × β))
    (k : HashKey) (v : β) :
    List.lookup k (pyDictInsert d k v) = some v := by
  by_cases h : k ∈ d.map Prod.fst
  · rw [pyDictInsert, if_pos h]
    exact lookup_map_overwrite d k v h
  · rw [pyDictInsert_of_not_mem d k v h]
    exact lookup_append_self d k v h

/-- In the dict built from a pair list whose last pair is `(k, v)`, looking
up `k` yields `v`: the last insertion wins. -/
theorem lookup_pyDict_append {β : Type} (ps : List (HashKey × β))
    (k : HashKey) (v : β) :
    List.lookup k (pyDict (ps ++ [(k, v)])) = some v := by
  unfold pyDict
  rw [List.foldl_append]
  simp only [List.foldl_cons, List.foldl_nil]
  exact lookup_pyDictInsert_self _ k v

/-! ## Size accounting of the cache -/

/-- As long as the declared sizes are accurate and no hashkey repeats, the
tracked `cache_size` equals the summed byte length of the buffers in the
cache, at every point of the loop. -/
theorem cache_size_eq_sum_foldl (hash : Content → HashKey) (mmu : Nat) :
    ∀ (ts : List Triplet) (s : GroupState),
      (∀ t ∈ ts, t.size = t.content.length) →
      (ts.map Triplet.hashkey).Nodup →
      (∀ t ∈ ts, t.hashkey ∉ s.content_cache.map Prod.fst) →
      s.cache_size = (s.content_cache.map (fun p => p.2.length)).sum →
      (ts.foldl (processTriplet hash mmu) s).cache_size =
        ((ts.foldl (processTriplet hash mmu) s).content_cache.map
          (fun p => p.2.length)).sum := by
  intro ts
  induction ts with
  | nil => exact fun s _ _ _ h => h
  | cons t ts ih =>
      intro s hsz hnd hdisj heq
      have hnd1 : t.hashkey ∉ ts.map Triplet.hashkey :=
        (List.nodup_cons.mp (by simpa using hnd)).1
      have hnd2 : (ts.map Triplet.hashkey).Nodup :=
        (List.nodup_cons.mp (by simpa using hnd)).2
      simp only [List.foldl_cons]
      by_cases h1 : t.size > mmu
      · rw [processTriplet_direct hash mmu s t h1]
        exact ih _ (fun u hu => hsz u (List.mem_cons_of_mem t hu)) hnd2
          (fun u hu => hdisj u (List.mem_cons_of_mem t hu)) heq
      · by_cases h2 : s.cache_size + t.size > mmu
        · rw [processTriplet_flush hash mmu s t h1 h2]
          refine ih _ (fun u hu => hsz u (List.mem_cons_of_mem t hu)) hnd2 ?_ ?_
          · intro u hu
            simp only [List.map_cons, List.map_nil, List.mem_singleton]
            intro he
            exact hnd1 (he ▸ List.mem_map_of_mem Triplet.hashkey hu)
          · simpa using hsz t (List.mem_cons_self t ts)
        · rw [processTriplet_buffer hash mmu s t h1 h2]
          have hfresh : t.hashkey ∉ s.content_cache.map Prod.fst :=
            hdisj t (List.mem_cons_self t ts)
          rw [pyDictInsert_of_not_mem s.content_cache t.hashkey t.content hfresh]
          refine ih _ (fun u hu => hsz u (List.mem_cons_of_mem t hu)) hnd2 ?_ ?_
          · intro u hu
            simp only [List.map_append, List.map_cons, List.map_nil,
              List.mem_append, List.mem_singleton]
            rintro (hm | he)
            · exact hdisj u (List.mem_cons_of_mem t hu) hm
            · exact hnd1 (he ▸ List.mem_map_of_mem Triplet.hashkey hu)
          · simp only [List.map_append, List.map_cons, List.map_nil, List.sum_append]
            simp [heq, hsz t (List.mem_cons_self t ts)]

/-! ## The accumulated hashkey lists decompose along the submitted batches -/

/-- Loop invariant: the accumulated old hashkeys are exactly the
concatenation of the hashkey lists of the submitted batches, and the
accumulated new hashkeys the concatenation of the corresponding
`add_streamed_objects_to_pack` results. -/
theorem old_new_eq_flatten_foldl (hash : Content → HashKey) (mmu : Nat) :
    ∀ (ts : List Triplet) (s : GroupState),
      s.old_obj_hashkeys = (s.batches.map (fun b => b.map Prod.fst)).flatten →
      s.new_obj_hashkeys =
        (s.batches.map (fun b => (b.map Prod.snd).map hash)).flatten →
      ((ts.foldl (processTriplet hash mmu) s).old_obj_hashkeys =
          ((ts.foldl (processTriplet hash mmu) s).batches.map
            (fun b => b.map Prod.fst)).flatten ∧
        (ts.foldl (processTriplet hash mmu) s).new_obj_hashkeys =
          ((ts.foldl (processTriplet hash mmu) s).batches.map
            (fun b => (b.map Prod.snd).map hash)).flatten) := by
  intro ts
  induction ts with
  | nil => exact fun s h1 h2 => ⟨h1, h2⟩
  | cons t ts ih =>
      intro s hold hnew
      simp only [List.foldl_cons]
      by_cases h1 : t.size > mmu
      · rw [processTriplet_direct hash mmu s t h1]
        exact ih _ (by simp [hold]) (by simp [hnew])
      · by_cases h2 : s.cache_size + t.size > mmu
        · rw [processTriplet_flush hash mmu s t h1 h2]
          exact ih _ (by simp [hold]) (by simp [hnew])
        · rw [processTriplet_buffer hash mmu s t h1 h2]
          exact ih _ hold hnew

/-- Zipping two concatenations whose blocks match in length is the
concatenation of the blockwise zips. -/
theorem zip_flatten_eq {α β γ : Type} (f : γ → List α) (g : γ → List β) :
    ∀ L : List γ, (∀ b ∈ L, (f b).length = (g b).length) →
      ((L.map f).flatten).zip ((L.map g).flatten) =
        (L.map (fun b => (f b).zip (g b))).flatten := by
  intro L
  induction L with
  | nil => simp
  | cons b L ih =>
      intro h
      simp only [List.map_cons, List.flatten_cons]
      rw [List.zip_append (h b (List.mem_cons_self b L)),
        ih (fun u hu => h u (List.mem_cons_of_mem b hu))]

/-! ## The claims -/

/-- C1 (counterexample): the hashkey lists and the mapping are re-initialised
for every group, so with two groups the returned mapping covers only the last
one.  Identifier 1 is presented in the first group, yet the returned mapping
is exactly `[(3, 4)]` and contains no entry for it — refuting that the final
mapping has exactly one entry for every identifier presented in any group. -/
theorem C1_counterexample :
    export_from_pack_grouped sumHash 100
        [[⟨1, [2], 1⟩], [⟨3, [4], 1⟩]] = some [(3, 4)] ∧
    (((export_from_pack_grouped sumHash 100
        [[⟨1, [2], 1⟩], [⟨3, [4], 1⟩]]).getD []).map Prod.fst).count 1 = 0 := by
  decide

/-- C1 (amended): the mapping returned by `export_from_pack_grouped` contains
exactly one entry for every old identifier presented in the *last* group; the
pairs of earlier groups are lost because `old_obj_hashkeys`,
`new_obj_hashkeys` and the mapping are rebuilt inside the per-group loop. -/
theorem C1_amended_last_group_complete (hash : Content → HashKey) (mmu : Nat)
    (gs : List (List Triplet)) (g : List Triplet) (k : HashKey)
    (hk : k ∈ g.map Triplet.hashkey) :
    (((export_from_pack_grouped hash mmu (gs ++ [g])).getD []).map
        Prod.fst).count k = 1 ∧
    (export_from_pack_grouped hash mmu (gs ++ [g])).isSome = true := by
  have hexp : export_from_pack_grouped hash mmu (gs ++ [g]) =
      some (pyDict ((processGroup hash mmu g).old_obj_hashkeys.zip
        (processGroup hash mmu g).new_obj_hashkeys)) := by
    unfold export_from_pack_grouped
    rw [List.foldl_append]
    rfl
  rw [hexp]
  refine ⟨?_, rfl⟩
  simp only [Option.getD_some]
  apply count_keys_pyDict_eq_one
  rw [List.map_fst_zip _ _ (le_of_eq (length_old_new_processGroup hash mmu g))]
  exact mem_old_processGroup hash mmu g k hk

/-- C1 (witness): one group `[{hashkey 1}]` as last group; its identifier has
exactly one entry in the returned mapping. -/
theorem C1_amended_witness :
    (((export_from_pack_grouped sumHash 100 ([] ++ [[⟨1, [2], 1⟩]])).getD []).map
        Prod.fst).count 1 = 1 ∧
    (export_from_pack_grouped sumHash 100 ([] ++ [[⟨1, [2], 1⟩]])).isSome = true :=
  C1_amended_last_group_complete sumHash 100 [] [⟨1, [2], 1⟩] 1 (by decide)

/-- C2: for any memory budget `> 0` and any input sequence, at every point of
a group's processing the tracked `cache_size` is at most `max_memory_usage`,
and an object whose declared size exceeds the budget leaves the cache (its
entries and its tracked size) untouched — it is never added to the cache. -/
theorem C2_budget_invariant (hash : Content → HashKey) (mmu : Nat)
    (hpos : 0 < mmu) (pre : List Triplet) (s : GroupState) (t : Triplet)
    (hbig : t.size > mmu) :
    (pre.foldl (processTriplet hash mmu) initGroupState).cache_size ≤ mmu ∧
    (processTriplet hash mmu s t).content_cache = s.content_cache ∧
    (processTriplet hash mmu s t).cache_size = s.cache_size := by
  refine ⟨cache_size_le_foldl hash mmu pre initGroupState (Nat.zero_le mmu), ?_, ?_⟩
  · rw [processTriplet_direct hash mmu s t hbig]
  · rw [processTriplet_direct hash mmu s t hbig]

/-- C2 (witness): budget 1, one buffered object of size 1, and a direct-write
object of size 2 from the empty state. -/
theorem C2_budget_invariant_witness :
    (([⟨1, [2], 1⟩] : List Triplet).foldl (processTriplet sumHash 1)
      initGroupState).cache_size ≤ 1 ∧
    (processTriplet sumHash 1 initGroupState ⟨2, [3, 4], 2⟩).content_cache =
      initGroupState.content_cache ∧
    (processTriplet sumHash 1 initGroupState ⟨2, [3, 4], 2⟩).cache_size =
      initGroupState.cache_size :=
  C2_budget_invariant sumHash 1 (by decide) [⟨1, [2], 1⟩] initGroupState
    ⟨2, [3, 4], 2⟩ (by decide)

/-- C3 (counterexample): a group with no triplets still causes one
`add_streamed_objects_to_pack` call — the unconditional final flush submits
an empty batch — refuting that an empty group makes zero Pack Writer calls. -/
theorem C3_counterexample :
    (processGroup sumHash 100 []).batches = [[]] ∧
    (processGroup sumHash 100 []).batches.length = 1 := by
  decide

/-- C3 (amended): a group whose Stream Source yields no triplets produces
exactly one Pack Writer call, whose batch is empty (zero streams, so nothing
is written), and contributes no entries to the mapping (both accumulated
hashkey lists stay empty). -/
theorem C3_amended_empty_group (hash : Content → HashKey) (mmu : Nat) :
    (processGroup hash mmu []).batches = [[]] ∧
    (processGroup hash mmu []).old_obj_hashkeys = [] ∧
    (processGroup hash mmu []).new_obj_hashkeys = [] :=
  ⟨rfl, rfl, rfl⟩

/-- C4 (counterexample): the same hashkey buffered twice (sizes accurate,
budget 100): the dict entry is overwritten but `cache_size` is incremented
again, so the tracked size is 2 while the single stored buffer has length 1 —
refuting that the tracked size always equals the summed buffer lengths when
an identifier repeats. -/
theorem C4_counterexample :
    (List.foldl (processTriplet sumHash 100) initGroupState
        [⟨1, [7], 1⟩, ⟨1, [7], 1⟩]).cache_size = 2 ∧
    ((List.foldl (processTriplet sumHash 100) initGroupState
        [⟨1, [7], 1⟩, ⟨1, [7], 1⟩]).content_cache.map
      (fun p => p.2.length)).sum = 1 := by
  decide

/-- C4 (amended): when every triplet's declared size equals its content
length and no old identifier occurs twice in the group's sequence, the
tracked `cache_size` equals the sum of the byte lengths of the buffers in
the cache at every point of the loop. -/
theorem C4_amended_size_accounting (hash : Content → HashKey) (mmu : Nat)
    (pre : List Triplet)
    (hsz : ∀ t ∈ pre, t.size = t.content.length)
    (hnd : (pre.map Triplet.hashkey).Nodup) :
    (pre.foldl (processTriplet hash mmu) initGroupState).cache_size =
      ((pre.foldl (processTriplet hash mmu) initGroupState).content_cache.map
        (fun p => p.2.length)).sum :=
  cache_size_eq_sum_foldl hash mmu pre initGroupState hsz hnd
    (fun t _ => by simp [initGroupState]) rfl

/-- C4 (witness): two distinct accurately-sized objects. -/
theorem C4_amended_witness :
    (([⟨1, [7], 1⟩, ⟨2, [8, 9], 2⟩] : List Triplet).foldl
      (processTriplet sumHash 100) initGroupState).cache_size =
      ((([⟨1, [7], 1⟩, ⟨2, [8, 9], 2⟩] : List Triplet).foldl
        (processTriplet sumHash 100) initGroupState).content_cache.map
        (fun p => p.2.length)).sum :=
  C4_amended_size_accounting sumHash 100 [⟨1, [7], 1⟩, ⟨2, [8, 9], 2⟩]
    (by decide) (by decide)

/-- C5 (counterexample): hashkey 1 is recorded twice (budget 1 forces two
flushes), yet `dict(zip(...))` raises no error: the mapping silently keeps
one entry whose new hashkey is the later one (6, not 5) — refuting that
recording an old identifier twice fails with `DuplicateKey`. -/
theorem C5_counterexample :
    (processGroup sumHash 1 [⟨1, [5], 1⟩, ⟨1, [6], 1⟩]).old_obj_hashkeys =
      [1, 1] ∧
    export_from_pack_grouped sumHash 1 [[⟨1, [5], 1⟩, ⟨1, [6], 1⟩]] =
      some [(1, 6)] := by
  decide

/-- C5 (amended): recording an old identifier again never fails and never
duplicates: the mapping built by `dict(zip(old, new))` keeps exactly one
entry for it, silently overwritten with the most recently recorded new
hashkey. -/
theorem C5_amended_silent_overwrite (ks vs : List HashKey) (k v : HashKey)
    (hlen : ks.length = vs.length) :
    ((pyDict ((ks ++ [k]).zip (vs ++ [v]))).map Prod.fst).count k = 1 ∧
    List.lookup k (pyDict ((ks ++ [k]).zip (vs ++ [v]))) = some v := by
  rw [List.zip_append hlen]
  constructor
  · apply count_keys_pyDict_eq_one
    simp
  · exact lookup_pyDict_append (ks.zip vs) k v

/-- C5 (witness): the pair `(1, 5)` followed by re-recording `1` as `6`. -/
theorem C5_amended_witness :
    ((pyDict ((([1] : List HashKey) ++ [1]).zip (([5] : List HashKey) ++ [6]))).map
        Prod.fst).count 1 = 1 ∧
    List.lookup 1 (pyDict ((([1] : List HashKey) ++ [1]).zip
        (([5] : List HashKey) ++ [6]))) = some 6 :=
  C5_amended_silent_overwrite [1] [5] 1 6 (by decide)

/-- C6 (Scenario A): budget 100, one group with identifiers 1, 2, 3 of sizes
30, 30, 50.  Object 1 is buffered (cache 30), object 2 is buffered
(cache 60), object 3 triggers a flush of `[1, 2]` as one batch and is then
buffered (cache 50), and the final flush writes `[3]`: exactly two
`add_streamed_objects_to_pack` calls, with batches `[1, 2]` and `[3]`. -/
theorem C6_scenarioA :
    List.foldl (processTriplet sumHash 100) initGroupState
        [⟨1, List.replicate 30 1, 30⟩] =
      { old_obj_hashkeys := []
        new_obj_hashkeys := []
        content_cache := [(1, List.replicate 30 1)]
        cache_size := 30
        batches := [] } ∧
    List.foldl (processTriplet sumHash 100) initGroupState
        [⟨1, List.replicate 30 1, 30⟩, ⟨2, List.replicate 30 2, 30⟩] =
      { old_obj_hashkeys := []
        new_obj_hashkeys := []
        content_cache := [(1, List.replicate 30 1), (2, List.replicate 30 2)]
        cache_size := 60
        batches := [] } ∧
    List.foldl (processTriplet sumHash 100) initGroupState
        [⟨1, List.replicate 30 1, 30⟩, ⟨2, List.replicate 30 2, 30⟩,
          ⟨3, List.replicate 50 1, 50⟩] =
      { old_obj_hashkeys := [1, 2]
        new_obj_hashkeys := [30, 60]
        content_cache := [(3, List.replicate 50 1)]
        cache_size := 50
        batches := [[(1, List.replicate 30 1), (2, List.replicate 30 2)]] } ∧
    processGroup sumHash 100
        [⟨1, List.replicate 30 1, 30⟩, ⟨2, List.replicate 30 2, 30⟩,
          ⟨3, List.replicate 50 1, 50⟩] =
      { old_obj_hashkeys := [1, 2, 3]
        new_obj_hashkeys := [30, 60, 50]
        content_cache := []
        cache_size := 0
        batches := [[(1, List.replicate 30 1), (2, List.replicate 30 2)],
          [(3, List.replicate 50 1)]] } := by
  decide

/-- C7: for every group, the accumulated old-hashkey list is exactly the
concatenation of the hashkey lists of the submitted batches, the accumulated
new-hashkey list the concatenation of the corresponding
`add_streamed_objects_to_pack` results (same length per batch by
construction), and zipping them pairs `old_obj_hashkeys[i]` with
`new_obj_hashkeys[i]` batchwise and positionwise. -/
theorem C7_positional_correspondence (hash : Content → HashKey) (mmu : Nat)
    (ts : List Triplet) :
    (processGroup hash mmu ts).old_obj_hashkeys =
      ((processGroup hash mmu ts).batches.map (fun b => b.map Prod.fst)).flatten ∧
    (processGroup hash mmu ts).new_obj_hashkeys =
      ((processGroup hash mmu ts).batches.map
        (fun b => add_streamed_objects_to_pack hash (b.map Prod.snd))).flatten ∧
    (processGroup hash mmu ts).old_obj_hashkeys.zip
        (processGroup hash mmu ts).new_obj_hashkeys =
      ((processGroup hash mmu ts).batches.map
        (fun b => (b.map Prod.fst).zip
          (add_streamed_objects_to_pack hash (b.map Prod.snd)))).flatten := by
  have h := old_new_eq_flatten_foldl hash mmu ts initGroupState rfl rfl
  have hold : (processGroup hash mmu ts).old_obj_hashkeys =
      ((processGroup hash mmu ts).batches.map (fun b => b.map Prod.fst)).flatten := by
    unfold processGroup finalFlush
    simp [h.1]
  have hnew : (processGroup hash mmu ts).new_obj_hashkeys =
      ((processGroup hash mmu ts).batches.map
        (fun b => add_streamed_objects_to_pack hash (b.map Prod.snd))).flatten := by
    unfold processGroup finalFlush
    simp [h.2, add_streamed_objects_to_pack]
  refine ⟨hold, hnew, ?_⟩
  rw [hold, hnew]
  exact zip_flatten_eq _ _ _ (fun b _ => by simp [add_streamed_objects_to_pack])

/-- C8: an object whose declared size strictly exceeds the budget is written
immediately as a batch of exactly one stream, its new hashkey is appended
against its old one, and the cache (entries and tracked size) is exactly the
one of the state before the step. -/
theorem C8_direct_write_frame (hash : Content → HashKey) (mmu : Nat)
    (s : GroupState) (t : Triplet) (hbig : t.size > mmu) :
    processTriplet hash mmu s t =
      { s with
        old_obj_hashkeys := s.old_obj_hashkeys ++ [t.hashkey]
        new_obj_hashkeys := s.new_obj_hashkeys ++
          add_streamed_objects_to_pack hash [t.content]
        batches := s.batches ++ [[(t.hashkey, t.content)]] } := by
  rw [processTriplet_direct hash mmu s t hbig]
  simp [add_streamed_objects_to_pack]

/-- C8 (witness): size 3 against budget 1 from the empty state. -/
theorem C8_direct_write_frame_witness :
    processTriplet sumHash 1 initGroupState ⟨7, [1, 2], 3⟩ =
      { initGroupState with
        old_obj_hashkeys := initGroupState.old_obj_hashkeys ++ [7]
        new_obj_hashkeys := initGroupState.new_obj_hashkeys ++
          add_streamed_objects_to_pack sumHash [[1, 2]]
        batches := initGroupState.batches ++ [[(7, [1, 2])]] } :=
  C8_direct_write_frame sumHash 1 initGroupState ⟨7, [1, 2], 3⟩ (by decide)

/-- C9 (counterexample): budget 100; a size-0 object is buffered, so the
cache is non-empty while `cache_size` is still 0; the following object of
size exactly 100 is then buffered on top of it — no flush happens (no
`add_streamed_objects_to_pack` call is made during the loop) — refuting that
an exactly-budget-sized object is buffered only if the cache is empty and
flushes whenever it is non-empty. -/
theorem C9_counterexample :
    (List.foldl (processTriplet sumHash 100) initGroupState
        [⟨1, [], 0⟩, ⟨2, [9], 100⟩]).content_cache = [(1, []), (2, [9])] ∧
    (List.foldl (processTriplet sumHash 100) initGroupState
        [⟨1, [], 0⟩, ⟨2, [9], 100⟩]).batches = [] := by
  decide

/-- C9 (amended): an object whose declared size exactly equals the budget is
buffered if and only if the *tracked* cache size is zero (which coincides
with cache emptiness only when no zero-size object is buffered), and
triggers flush-then-buffer if and only if the tracked size is positive; with
`cache_size = 0` the step is exactly a cache insertion, with no
`add_streamed_objects_to_pack` call. -/
theorem C9_amended_boundary (hash : Content → HashKey) (mmu : Nat)
    (s : GroupState) (t : Triplet) (hsz : t.size = mmu) :
    (chooseAction mmu s.cache_size t.size = .buffer ↔ s.cache_size = 0) ∧
    (chooseAction mmu s.cache_size t.size = .flushThenBuffer ↔
      0 < s.cache_size) ∧
    (s.cache_size = 0 →
      processTriplet hash mmu s t =
        { s with
          content_cache := pyDictInsert s.content_cache t.hashkey t.content
          cache_size := s.cache_size + t.size }) := by
  subst hsz
  rcases Nat.eq_zero_or_pos s.cache_size with h0 | hpos
  · refine ⟨?_, ?_, ?_⟩
    · rw [h0]; simp [chooseAction]
    · rw [h0]; simp [chooseAction]
    · intro _
      refine processTriplet_buffer hash t.size s t ?_ ?_
      · simp
      · rw [h0]; simp
  · have hne : s.cache_size ≠ 0 := Nat.pos_iff_ne_zero.mp hpos
    have h2 : s.cache_size + t.size > t.size := Nat.lt_add_of_pos_left hpos
    refine ⟨?_, ?_, ?_⟩
    · simp [chooseAction, h2, hne]
    · simp [chooseAction, h2, hpos]
    · intro h0; exact absurd h0 hne

/-- C9 (witness): empty state (tracked size 0), object of size exactly the
budget 100. -/
theorem C9_amended_boundary_witness :
    (chooseAction 100 initGroupState.cache_size
        (⟨1, [2], 100⟩ : Triplet).size = .buffer ↔
      initGroupState.cache_size = 0) ∧
    (chooseAction 100 initGroupState.cache_size
        (⟨1, [2], 100⟩ : Triplet).size = .flushThenBuffer ↔
      0 < initGroupState.cache_size) ∧
    (initGroupState.cache_size = 0 →
      processTriplet sumHash 100 initGroupState ⟨1, [2], 100⟩ =
        { initGroupState with
          content_cache := pyDictInsert initGroupState.content_cache 1 [2]
          cache_size := initGroupState.cache_size + 100 }) :=
  C9_amended_boundary sumHash 100 initGroupState ⟨1, [2], 100⟩ (by decide)

/-- C10: with an empty list of groups, `old_new_obj_hashkey_mapping` is never
assigned (it is assigned only inside the per-group loop), so the function
does not return a mapping at all: the `return` raises `UnboundLocalError`,
modelled here as `none`. -/
theorem C10_empty_groups_unbound (hash : Content → HashKey) (mmu : Nat) :
    export_from_pack_grouped hash mmu [] = none :=
  rfl
